import Mathlib

/-!
# Proof-of-work challenge server: `ProcessRequest`

A shallow embedding of `internal/server/server.go` (the request dispatcher
`ProcessRequest`, the `Cache` interface and the `Quotes` table) and of the
`Config` record of `internal/pkg/config/config.go`, together with the parts of
the Go standard library the dispatcher calls on tokens (`fmt.Sprintf("%d")`,
`strconv.Atoi`, `base64.StdEncoding`).

Go strings are kept as Lean strings where the program treats them as opaque
text and as lists of byte values (`List Nat`, each below 256) where it
inspects them. Go's `(value, error)` results are kept as a value together with
an optional error. A run-time panic is the result `none` of `ProcessRequest`.
-/

namespace Server

/-! ## Standard library: decimal text of integers -/

/-- Decimal digits of `n`, most significant first, in front of `acc`; the
first argument bounds the number of digits produced. -/
def digitsCore : Nat → Nat → List Nat → List Nat
  | 0, _, acc => acc
  | fuel + 1, n, acc =>
    if n / 10 = 0 then (48 + n % 10) :: acc
    else digitsCore fuel (n / 10) ((48 + n % 10) :: acc)

/-- The bytes of `fmt.Sprintf("%d", n)` for a natural number. -/
def formatNat (n : Nat) : List Nat := digitsCore (n + 1) n []

/-- The bytes of `fmt.Sprintf("%d", v)`. -/
def formatInt (v : Int) : List Nat :=
  if v < 0 then 45 :: formatNat v.natAbs else formatNat v.natAbs

/-- Value of a run of ASCII decimal digits read left to right, starting
from `acc`; `none` when a byte is not a digit. -/
def parseDigits : List Nat → Nat → Option Nat
  | [], acc => some acc
  | c :: cs, acc =>
    if 48 ≤ c ∧ c ≤ 57 then parseDigits cs (acc * 10 + (c - 48)) else none

/-- The function `strconv.Atoi` on a 64-bit platform: an optional sign, at
least one decimal digit, nothing else, and a value that fits `int`;
`none` stands for the syntax and range errors. -/
def Atoi (s : List Nat) : Option Int :=
  match s with
  | [] => none
  | c :: cs =>
    let body := if c = 45 ∨ c = 43 then cs else c :: cs
    if body = [] then none
    else
      match parseDigits body 0 with
      | none => none
      | some n =>
        let v : Int := if c = 45 then -(n : Int) else (n : Int)
        if -(2 ^ 63 : Int) ≤ v ∧ v < 2 ^ 63 then some v else none

/-! ## Standard library: `base64.StdEncoding` -/

/-- The alphabet of `base64.StdEncoding`. -/
def encodeStd : List Char :=
  "ABCDEFGHIJKLMNOPQRSTUVWXYZabcdefghijklmnopqrstuvwxyz0123456789+/".toList

/-- Character of a six-bit value. -/
def encodeChar (v : Nat) : Char := encodeStd.getD v 'A'

/-- The decode map of the encoding: the six-bit value of an alphabet
character, `none` (Go: `0xff`) for every other byte. -/
def decodeMap (c : Char) : Option Nat :=
  if c ∈ encodeStd then some (encodeStd.indexOf c) else none

/-- `base64.StdEncoding.EncodeToString` on a byte list: three bytes become
four characters, a final group of one or two bytes is padded with `=`. -/
def EncodeToString : List Nat → List Char
  | [] => []
  | [a] => [encodeChar (a / 4), encodeChar (a % 4 * 16), '=', '=']
  | [a, b] =>
    [encodeChar (a / 4), encodeChar (a % 4 * 16 + b / 16), encodeChar (b % 16 * 4), '=']
  | a :: b :: c :: rest =>
    encodeChar (a / 4) :: encodeChar (a % 4 * 16 + b / 16) ::
      encodeChar (b % 16 * 4 + c / 64) :: encodeChar (c % 64) :: EncodeToString rest

/-- Line breaks, which the decoder skips. -/
def isNewline (c : Char) : Bool := c == '\n' || c == '\r'

/-- The first `dlen - 1` bytes of the 24-bit value assembled from four
six-bit values (`decodeQuantum`; the values are below 64, so the shifts
combined with `|` there are the sum here). -/
def quantumBytes (d0 d1 d2 d3 dlen : Nat) : List Nat :=
  let val := d0 * 2 ^ 18 + d1 * 2 ^ 12 + d2 * 2 ^ 6 + d3
  [val / 2 ^ 16 % 256, val / 2 ^ 8 % 256, val % 256].take (dlen - 1)

/-- The loop of `Encoding.Decode` for the padded, non-strict standard
encoding: `pend` holds the six-bit values of the quantum being read.
Line breaks are skipped; `=` is accepted only as the padding of a final
quantum of two or three characters, followed by nothing but line breaks;
every other byte outside the alphabet, and an input that ends inside a
quantum, is an error (`none`). -/
def decodeLoop : List Char → List Nat → Option (List Nat)
  | [], pend => if pend.isEmpty then some [] else none
  | c :: rest, pend =>
    match decodeMap c with
    | some v =>
      match pend with
      | [d0, d1, d2] => (decodeLoop rest []).map (quantumBytes d0 d1 d2 v 4 ++ ·)
      | _ => decodeLoop rest (pend ++ [v])
    | none =>
      if isNewline c then decodeLoop rest pend
      else if c ≠ '=' then none
      else
        match pend with
        | [d0, d1] =>
          match rest.dropWhile isNewline with
          | [] => none
          | c2 :: rest2 =>
            if c2 ≠ '=' then none
            else if (rest2.dropWhile isNewline).isEmpty then some (quantumBytes d0 d1 0 0 2)
            else none
        | [d0, d1, d2] =>
          if (rest.dropWhile isNewline).isEmpty then some (quantumBytes d0 d1 d2 0 3)
          else none
        | _ => none

/-- `base64.StdEncoding.DecodeString`; `none` stands for a
`CorruptInputError`. -/
def DecodeString (s : String) : Option (List Nat) := decodeLoop s.toList []

/-! ## Data model -/

/-- Two's-complement wrap-around of a 64-bit signed integer. -/
def wrapInt64 (x : Int) : Int := (x + 2 ^ 63) % 2 ^ 64 - 2 ^ 63

/-- The record `config.Config`. -/
structure Config where
  ServerHost : String
  ServerPort : Int
  CacheHost : String
  CachePort : Int
  HashcashZerosCount : Int
  HashcashDuration : Int
  HashcashMaxIterations : Int
  deriving DecidableEq

/-- Modelled from the spec: the declaration of `pow.HashcashData` is not among
the sources; the fields are those of the struct literal in `ProcessRequest`
and of section 6 (`version`, `zerosCount`, `date`, `resource`, `rand`,
`counter`). -/
structure HashcashData where
  Version : Int
  ZerosCount : Int
  Date : Int
  Resource : String
  Rand : String
  Counter : Int
  deriving DecidableEq

/-- Modelled from the spec: the header constants of package `protocol` are not
among the sources; section 3 gives the vocabulary (quit, challenge-request,
challenge-response, resource-request, resource-response). `Unrecognized`
stands for every other header value a parsed message may carry. -/
inductive Header where
  | Quit
  | RequestChallenge
  | ResponseChallenge
  | RequestResource
  | ResponseResource
  | Unrecognized
  deriving DecidableEq

/-- Modelled from the spec: `protocol.Message` is not among the sources; a
header tag and a payload string (section 3). -/
structure Message where
  Header : Server.Header
  Payload : String
  deriving DecidableEq

/-- Go error values: the sentinel `ErrQuit`, the results of `fmt.Errorf`
without and with a wrapped cause, and errors produced by a collaborator. -/
inductive Error where
  | ErrQuit
  | errorf (text : String)
  | wrapf (text : String) (cause : Error)
  | foreign (text : String)
  deriving DecidableEq

/-- The table `Quotes`. -/
def Quotes : List String :=
  ["All saints who remember to keep and do these sayings, " ++
      "walking in obedience to the commandments, " ++
      "shall receive health in their navel and marrow to their bones",
   "And shall find wisdom and great treasures of knowledge, even hidden treasures",
   "And shall run and not be weary, and shall walk and not faint",
   "And I, the Lord, give unto them a promise, " ++
      "that the destroying angel shall pass by them, " ++
      "as the children of Israel, and not slay them"]

/-- The interface `Clock`: `Now` is the value of `clock.Now().Unix()`, which
`ProcessRequest` reads at most once while it handles a request. -/
structure Clock where
  Now : Int

/-- The interface `Cache` over a store state `σ`. Every method may change
the state; `Add` reports an optional error, `Get` a boolean and an
optional error. -/
structure Cache (σ : Type) where
  Add : σ → Int → Int → Option Error × σ
  Get : σ → Int → (Bool × Option Error) × σ
  Delete : σ → Int → σ

/-- The values `ProcessRequest` takes from its context (`main` stores all
three under the keys `config`, `clock` and `cache`). -/
structure Context (σ : Type) where
  config : Config
  clock : Clock
  cache : Cache σ

/-- Functions taken as parameters: `protocol.ParseMessage` and the method
`HashcashData.ComputeHashcash` (packages `protocol` and `pow` are not among the
sources), and `json.Marshal` and `json.Unmarshal` on `pow.HashcashData` (whose
declaration, with its field tags, is not among the sources). Each is a total
function that returns a value or an error. -/
structure Deps where
  ParseMessage : String → Except Error Message
  Marshal : HashcashData → Except Error String
  Unmarshal : String → Except Error HashcashData
  ComputeHashcash : HashcashData → Int → HashcashData × Option Error

deriving instance DecidableEq for Except

/-- Calls that `ProcessRequest` makes on the cache and on the proof-of-work
engine, in the order they are made. -/
inductive Call where
  | Add (key : Int) (expiration : Int)
  | Get (key : Int)
  | Delete (key : Int)
  | ComputeHashcash (hashcash : HashcashData) (maxIterations : Int)
  deriving DecidableEq

/-- What one execution of `ProcessRequest` leaves behind: the two returned
values, the store, and the calls made. -/
structure Outcome (σ : Type) where
  msg : Option Message
  err : Option Error
  store : σ
  calls : List Call

/-- The contract of `rand.Intn(n)`: a value in `[0, n)`, here the residue of
the raw draw `rnd`. -/
def Intn (n rnd : Nat) : Nat := rnd % n

/-! ## The dispatcher -/

/-- The function `ProcessRequest`. `rnd` is the raw random draw and `store`
the state of the cache when the request arrives; the diagnostic prints are
left out. The result `none` is a run-time panic (index out of range). -/
def ProcessRequest {σ : Type} (deps : Deps) (ctx : Context σ) (rnd : Nat) (store : σ)
    (msgStr clientInfo : String) : Option (Outcome σ) :=
  match deps.ParseMessage msgStr with
  | .error err => some ⟨none, some err, store, []⟩
  | .ok msg =>
    match msg.Header with
    | .Quit => some ⟨none, some .ErrQuit, store, []⟩
    | .RequestChallenge =>
      let conf := ctx.config
      let date := ctx.clock.Now
      let randValue : Int := (Intn 100000 rnd : Nat)
      match ctx.cache.Add store randValue conf.HashcashDuration with
      | (some err, store1) =>
        some ⟨none, some (.wrapf "err add rand to cache" err), store1,
          [.Add randValue conf.HashcashDuration]⟩
      | (none, store1) =>
        let hashcash : HashcashData :=
          { Version := 1
            ZerosCount := conf.HashcashZerosCount
            Date := date
            Resource := clientInfo
            Rand := String.mk (EncodeToString (formatInt randValue))
            Counter := 0 }
        match deps.Marshal hashcash with
        | .error err =>
          some ⟨none, some (.wrapf "err marshal hashcash" err), store1,
            [.Add randValue conf.HashcashDuration]⟩
        | .ok hashcashMarshaled =>
          some ⟨some ⟨.ResponseChallenge, hashcashMarshaled⟩, none, store1,
            [.Add randValue conf.HashcashDuration]⟩
    | .RequestResource =>
      match deps.Unmarshal msg.Payload with
      | .error err => some ⟨none, some (.wrapf "err unmarshal hashcash" err), store, []⟩
      | .ok hashcash =>
        if hashcash.Resource ≠ clientInfo then
          some ⟨none, some (.errorf "invalid hashcash resource"), store, []⟩
        else
          let conf := ctx.config
          match DecodeString hashcash.Rand with
          | none => some ⟨none, some (.wrapf "err decode rand" (.foreign "base64")), store, []⟩
          | some randValueBytes =>
            match Atoi randValueBytes with
            | none =>
              some ⟨none, some (.wrapf "err decode rand" (.foreign "strconv")), store, []⟩
            | some randValue =>
              match ctx.cache.Get store randValue with
              | ((_, some err), store1) =>
                some ⟨none, some (.wrapf "err get rand from cache" err), store1,
                  [.Get randValue]⟩
              | ((exists_, none), store1) =>
                if !exists_ then
                  some ⟨none, some (.errorf "challenge expired or not sent"), store1,
                    [.Get randValue]⟩
                else if wrapInt64 (ctx.clock.Now - hashcash.Date) > conf.HashcashDuration then
                  some ⟨none, some (.errorf "challenge expired"), store1, [.Get randValue]⟩
                else
                  let maxIter := if hashcash.Counter = 0 then 1 else hashcash.Counter
                  match (deps.ComputeHashcash hashcash maxIter).2 with
                  | some _ =>
                    some ⟨none, some (.errorf "invalid hashcash"), store1,
                      [.Get randValue, .ComputeHashcash hashcash maxIter]⟩
                  | none =>
                    match Quotes[Intn 4 rnd]? with
                    | none => none
                    | some quote =>
                      some ⟨some ⟨.ResponseResource, quote⟩, none,
                        ctx.cache.Delete store1 randValue,
                        [.Get randValue, .ComputeHashcash hashcash maxIter,
                          .Delete randValue]⟩
    | _ => some ⟨none, some (.errorf "unknown header"), store, []⟩

/-! ## The challenge store of section 4.3 -/

/-- Modelled from the spec: package `cache` is not among the sources. Section
4.3: the store is the set of issued tokens, each with its expiry. -/
abbrev Store := List (Int × Int)

/-- Modelled from the spec: `add(token, ttlSeconds)` registers the token with
expiry = now + ttl (section 4.3). -/
def Store.add (s : Store) (now token ttl : Int) : Store :=
  (token, now + ttl) :: s.filter (fun e => e.1 ≠ token)

/-- Modelled from the spec: `get(token)` is true iff the token was added, not
deleted since, and not expired, the expiry being checked when read (section
4.3). -/
def Store.get (s : Store) (now token : Int) : Bool :=
  s.any (fun e => e.1 = token ∧ now ≤ e.2)

/-- Modelled from the spec: `delete(token)` is an idempotent removal (section
4.3). -/
def Store.delete (s : Store) (token : Int) : Store :=
  s.filter (fun e => e.1 ≠ token)

/-- Modelled from the spec: the store of section 4.3 behind the `Cache`
interface, read at time `now`; none of its operations fails. -/
def storeCache (now : Int) : Cache Store where
  Add := fun s key ttl => (none, s.add now key ttl)
  Get := fun s key => ((s.get now key, none), s)
  Delete := fun s key => s.delete key

/-- One request as the server sees it: the line read, the identity of the
connection, the clock reading and the raw random draw. -/
structure Request where
  msgStr : String
  clientInfo : String
  now : Int
  rnd : Nat

/-- `ProcessRequest` as a step over the store of section 4.3. -/
def step (deps : Deps) (conf : Config) (s : Store) (r : Request) : Option (Outcome Store) :=
  ProcessRequest deps ⟨conf, ⟨r.now⟩, storeCache r.now⟩ r.rnd s r.msgStr r.clientInfo

/-- The store after a sequence of requests (a panic leaves it as it is). -/
def run (deps : Deps) (conf : Config) (s : Store) : List Request → Store
  | [] => s
  | r :: rs =>
    match step deps conf s r with
    | some o => run deps conf o.store rs
    | none => run deps conf s rs

/-- A resource-request was accepted: a resource-response is returned. -/
def Accepted {σ : Type} (res : Option (Outcome σ)) : Prop :=
  (res.bind (fun o => o.msg)).map (fun m => m.Header) = some .ResponseResource

instance {σ : Type} (res : Option (Outcome σ)) : Decidable (Accepted res) :=
  inferInstanceAs (Decidable (_ = _))

/-- The request was rejected: an error and no message are returned. -/
def Rejected {σ : Type} (res : Option (Outcome σ)) : Prop :=
  ∃ o e, res = some o ∧ o.msg = none ∧ o.err = some e

/-- The request line is a resource-request carrying the stamp `h`. -/
def Carries (deps : Deps) (r : Request) (h : HashcashData) : Prop :=
  ∃ payload, deps.ParseMessage r.msgStr = .ok ⟨.RequestResource, payload⟩ ∧
    deps.Unmarshal payload = .ok h

/-- The header of the request line, when the line parses. -/
def headerOf (deps : Deps) (r : Request) : Option Header :=
  match deps.ParseMessage r.msgStr with
  | .ok m => some m.Header
  | .error _ => none

/-- The request line is a challenge-request. -/
def IsChallengeRequest (deps : Deps) (r : Request) : Prop :=
  headerOf deps r = some .RequestChallenge

instance (deps : Deps) (r : Request) : Decidable (IsChallengeRequest deps r) :=
  inferInstanceAs (Decidable (_ = _))

/-- The token a stamp carries, as the resource-request branch decodes it. -/
def tokenOf (h : HashcashData) : Option Int :=
  (DecodeString h.Rand).bind Atoi

/-! ## A concrete instance of the collaborators -/

/-- Modelled from the spec: package `protocol` is not among the sources. The
header tags of section 3. -/
def headerOfTag (tag : String) : Option Header :=
  if tag = "quit" then some .Quit
  else if tag = "challenge-request" then some .RequestChallenge
  else if tag = "challenge-response" then some .ResponseChallenge
  else if tag = "resource-request" then some .RequestResource
  else if tag = "resource-response" then some .ResponseResource
  else none

/-- Modelled from the spec: package `protocol` is not among the sources.
Section 4.1 and 6: a line is a header tag, a separator (here `|`) and a
payload, newline-terminated; parsing fails when the separator or a recognized
tag is absent. -/
def sampleParseMessage (raw : String) : Except Error Message :=
  match (raw.toList.filter (fun c => !isNewline c)).span (fun c => c != '|') with
  | (tag, _ :: payload) =>
    match headerOfTag (String.mk tag) with
    | some h => .ok ⟨h, String.mk payload⟩
    | none => .error (.foreign "unknown header tag")
  | (_, []) => .error (.foreign "separator missing")

/-- Bytes of an ASCII text. -/
def bytesOf (cs : List Char) : List Nat := cs.map Char.toNat

/-- Text of ASCII bytes. -/
def textOf (bs : List Nat) : List Char := bs.map Char.ofNat

/-- Modelled from the spec: the encoding of a stamp is not among the sources
(section 6: a structured text record of the six fields). Here the fields are
written in the order of section 6, separated by `;`. -/
def sampleMarshal (h : HashcashData) : Except Error String :=
  .ok (String.mk (List.intercalate [';']
    [textOf (formatInt h.Version), textOf (formatInt h.ZerosCount), textOf (formatInt h.Date),
      h.Resource.toList, h.Rand.toList, textOf (formatInt h.Counter)]))

/-- Modelled from the spec: the decoding of the six `;`-separated fields of
`sampleMarshal`. -/
def sampleUnmarshal (payload : String) : Except Error HashcashData :=
  match payload.toList.splitOn ';' with
  | [v, z, d, res, rnd, c] =>
    match Atoi (bytesOf v), Atoi (bytesOf z), Atoi (bytesOf d), Atoi (bytesOf c) with
    | some v, some z, some d, some c => .ok ⟨v, z, d, String.mk res, String.mk rnd, c⟩
    | _, _, _, _ => .error (.foreign "invalid field")
  | _ => .error (.foreign "invalid record")

/-- A stand-in for the digest of a stamp: three decimal digits computed from
the date and the counter. -/
def sampleDigest (h : HashcashData) : List Char :=
  let v := (37 * h.Counter.toNat + h.Date.toNat) % 1000
  textOf [48 + v / 100, 48 + v / 10 % 10, 48 + v % 10]

/-- Modelled from the spec: package `pow` is not among the sources. Section
4.2: verification checks once that the textual digest of the stamp as
submitted has at least `zerosCount` leading zero characters. -/
def specComputeHashcash (digest : HashcashData → List Char) (h : HashcashData)
    (_maxIterations : Int) : HashcashData × Option Error :=
  if h.ZerosCount ≤ ((digest h).takeWhile (fun c => c == '0')).length then (h, none)
  else (h, some (.foreign "max iterations exceeded"))

/-- The collaborators above, put together. -/
def sampleDeps : Deps where
  ParseMessage := sampleParseMessage
  Marshal := sampleMarshal
  Unmarshal := sampleUnmarshal
  ComputeHashcash := specComputeHashcash sampleDigest

/-- A configuration with difficulty 3 and a validity window of 300 seconds. -/
def sampleConfig : Config :=
  { ServerHost := "0.0.0.0", ServerPort := 3333, CacheHost := "redis", CachePort := 6379,
    HashcashZerosCount := 3, HashcashDuration := 300, HashcashMaxIterations := 1000000 }

/-- The context of a request handled at time `now` over the store of section
4.3, with the sample configuration. -/
def sampleContext (now : Int) : Context Store := ⟨sampleConfig, ⟨now⟩, storeCache now⟩

/-- The identity of the sample connection. -/
def sampleClient : String := "10.0.0.7:5555"

/-- The stamp issued to the sample client at time 100 for token 7, with the
counter 700 that solves it for `sampleDigest`. -/
def solvedStamp : HashcashData := ⟨1, 3, 100, "10.0.0.7:5555", "Nw==", 700⟩

/-- The resource-request line carrying `solvedStamp`. -/
def solvedLine : String := "resource-request|1;3;100;10.0.0.7:5555;Nw==;700\n"

/-- The part of `handleConnection` that follows the call of `ProcessRequest`:
the message written to the peer, if any, and whether the loop goes on to
read the next line. -/
def handleOutcome {σ : Type} (o : Outcome σ) : Option Message × Bool :=
  match o.err with
  | some _ => (none, false)
  | none => (o.msg, true)

/-- Every check of the resource-request branch passes for the payload. -/
def PassesChecks {σ : Type} (deps : Deps) (ctx : Context σ) (store : σ)
    (clientInfo payload : String) : Prop :=
  ∃ hashcash token store1,
    deps.Unmarshal payload = .ok hashcash ∧ hashcash.Resource = clientInfo ∧
    tokenOf hashcash = some token ∧
    ctx.cache.Get store token = ((true, none), store1) ∧
    wrapInt64 (ctx.clock.Now - hashcash.Date) ≤ ctx.config.HashcashDuration ∧
    (deps.ComputeHashcash hashcash
      (if hashcash.Counter = 0 then 1 else hashcash.Counter)).2 = none

/-! ## Theorems -/

/-! ### The token encoding -/

theorem parseDigits_digitsCore (fuel : Nat) :
    ∀ (n : Nat) (acc : List Nat), n < fuel →
      ∃ p, ∀ k, parseDigits (digitsCore fuel n acc) k = parseDigits acc (k * p + n) := by
  induction fuel with
  | zero => intro n acc h; omega
  | succ fuel ih =>
    intro n acc hn
    by_cases h0 : n / 10 = 0
    · refine ⟨10, fun k => ?_⟩
      have hlt : n < 10 := by omega
      have hmod : n % 10 = n := Nat.mod_eq_of_lt hlt
      simp [digitsCore, h0, parseDigits, hmod]
      have : 48 + n ≤ 57 := by omega
      simp [this]
    · obtain ⟨p, hp⟩ := ih (n / 10) ((48 + n % 10) :: acc) (by omega)
      refine ⟨p * 10, fun k => ?_⟩
      have hd : 48 + n % 10 ≤ 57 := by omega
      simp [digitsCore, h0, hp, parseDigits, hd]
      congr 1
      have := Nat.div_add_mod n 10
      ring_nf
      omega

theorem digitsCore_head (fuel : Nat) :
    ∀ (n : Nat) (acc : List Nat), 0 < fuel →
      ∃ c cs, digitsCore fuel n acc = c :: cs ∧ 48 ≤ c ∧ c ≤ 57 := by
  induction fuel with
  | zero => intro n acc h; omega
  | succ fuel ih =>
    intro n acc _
    by_cases h0 : n / 10 = 0
    · exact ⟨48 + n % 10, acc, by simp [digitsCore, h0], by omega, by omega⟩
    · cases fuel with
      | zero => exact ⟨48 + n % 10, acc, by simp [digitsCore, h0], by omega, by omega⟩
      | succ f =>
        obtain ⟨c, cs, hc, h1, h2⟩ := ih (n / 10) ((48 + n % 10) :: acc) (by omega)
        exact ⟨c, cs, by rw [digitsCore, if_neg h0, hc], h1, h2⟩

theorem digitsCore_lt (fuel : Nat) :
    ∀ (n : Nat) (acc : List Nat), (∀ b ∈ acc, b < 256) →
      ∀ b ∈ digitsCore fuel n acc, b < 256 := by
  induction fuel with
  | zero => intro n acc h; simpa [digitsCore] using h
  | succ fuel ih =>
    intro n acc hacc
    have hcons : ∀ b ∈ (48 + n % 10) :: acc, b < 256 := by
      intro b hb
      rcases List.mem_cons.mp hb with rfl | hb
      · omega
      · exact hacc b hb
    by_cases h0 : n / 10 = 0
    · simpa [digitsCore, h0] using hcons
    · rw [digitsCore, if_neg h0]
      exact ih _ _ hcons

theorem Atoi_formatNat (n : Nat) (hn : n < 2 ^ 63) : Atoi (formatNat n) = some (n : Int) := by
  obtain ⟨c, cs, hc, h1, h2⟩ := digitsCore_head (n + 1) n [] (by omega)
  obtain ⟨p, hp⟩ := parseDigits_digitsCore (n + 1) n [] (by omega)
  have hval : parseDigits (c :: cs) 0 = some n := by
    rw [← hc, hp 0]
    simp [parseDigits]
  have h45 : c ≠ 45 := by omega
  have h43 : c ≠ 43 := by omega
  have hr : (n : Int) < 2 ^ 63 := by exact_mod_cast hn
  have hl : -(2 ^ 63 : Int) ≤ (n : Int) := by
    have : (0 : Int) ≤ (n : Int) := Int.ofNat_nonneg n
    omega
  simp only [formatNat, hc, Atoi, h45, h43, or_self, if_false, hval]
  rw [if_neg (List.cons_ne_nil c cs), if_pos ⟨hl, hr⟩]

theorem formatInt_natCast (n : Nat) : formatInt (n : Int) = formatNat n := by
  simp [formatInt]

theorem decodeMap_encodeChar : ∀ v, v < 64 → decodeMap (encodeChar v) = some v := by
  decide

theorem decodeMap_pad : decodeMap '=' = none := by decide

theorem decodeLoop_first (c : Char) (v : Nat) (rest : List Char) (h : decodeMap c = some v) :
    decodeLoop (c :: rest) [] = decodeLoop rest [v] := by
  simp [decodeLoop, h]

theorem decodeLoop_second (c : Char) (v d0 : Nat) (rest : List Char)
    (h : decodeMap c = some v) :
    decodeLoop (c :: rest) [d0] = decodeLoop rest [d0, v] := by
  simp [decodeLoop, h]

theorem decodeLoop_third (c : Char) (v d0 d1 : Nat) (rest : List Char)
    (h : decodeMap c = some v) :
    decodeLoop (c :: rest) [d0, d1] = decodeLoop rest [d0, d1, v] := by
  simp [decodeLoop, h]

theorem decodeLoop_fourth (c : Char) (v d0 d1 d2 : Nat) (rest : List Char)
    (h : decodeMap c = some v) :
    decodeLoop (c :: rest) [d0, d1, d2] =
      (decodeLoop rest []).map (quantumBytes d0 d1 d2 v 4 ++ ·) := by
  simp [decodeLoop, h]

theorem decodeLoop_pad_two (d0 d1 : Nat) :
    decodeLoop ['=', '='] [d0, d1] = some (quantumBytes d0 d1 0 0 2) := by
  simp [decodeLoop, decodeMap_pad, isNewline]

theorem decodeLoop_pad_one (d0 d1 d2 : Nat) :
    decodeLoop ['='] [d0, d1, d2] = some (quantumBytes d0 d1 d2 0 3) := by
  simp [decodeLoop, decodeMap_pad, isNewline]

theorem decodeLoop_EncodeToString (bs : List Nat) (hbs : ∀ b ∈ bs, b < 256) :
    decodeLoop (EncodeToString bs) [] = some bs := by
  induction bs using EncodeToString.induct with
  | case1 => simp [EncodeToString, decodeLoop]
  | case2 a =>
    have ha : a < 256 := hbs a (by simp)
    rw [EncodeToString, decodeLoop_first _ _ _ (decodeMap_encodeChar _ (by omega)),
      decodeLoop_second _ _ _ _ (decodeMap_encodeChar _ (by omega)), decodeLoop_pad_two]
    simp [quantumBytes]
    omega
  | case3 a b =>
    have ha : a < 256 := hbs a (by simp)
    have hb : b < 256 := hbs b (by simp)
    rw [EncodeToString, decodeLoop_first _ _ _ (decodeMap_encodeChar _ (by omega)),
      decodeLoop_second _ _ _ _ (decodeMap_encodeChar _ (by omega)),
      decodeLoop_third _ _ _ _ _ (decodeMap_encodeChar _ (by omega)), decodeLoop_pad_one]
    simp [quantumBytes]
    omega
  | case4 a b c rest ih =>
    have ha : a < 256 := hbs a (by simp)
    have hb : b < 256 := hbs b (by simp)
    have hc : c < 256 := hbs c (by simp)
    rw [EncodeToString, decodeLoop_first _ _ _ (decodeMap_encodeChar _ (by omega)),
      decodeLoop_second _ _ _ _ (decodeMap_encodeChar _ (by omega)),
      decodeLoop_third _ _ _ _ _ (decodeMap_encodeChar _ (by omega)),
      decodeLoop_fourth _ _ _ _ _ _ (decodeMap_encodeChar _ (by omega)),
      ih (fun x hx => hbs x (by simp [hx]))]
    simp [quantumBytes]
    omega

theorem DecodeString_EncodeToString (bs : List Nat) (hbs : ∀ b ∈ bs, b < 256) :
    DecodeString (String.mk (EncodeToString bs)) = some bs := by
  simpa [DecodeString] using decodeLoop_EncodeToString bs hbs

theorem formatNat_lt (n : Nat) : ∀ b ∈ formatNat n, b < 256 :=
  digitsCore_lt (n + 1) n [] (by simp)

/-- C10: for every token `n` the challenge-request branch can draw
(`n < 100000`), the rand field it issues (base64 of the decimal text of `n`)
is decoded by the resource-request branch (base64 decoding, then `Atoi`)
without error to `n` itself, and two such tokens with the same rand field
are equal. -/
theorem issued_token_roundtrip (n : Nat) (hn : n < 100000) :
    (∃ bytes, DecodeString (String.mk (EncodeToString (formatInt (n : Int)))) = some bytes ∧
      Atoi bytes = some (n : Int)) ∧
    ∀ m : Nat, m < 100000 →
      String.mk (EncodeToString (formatInt (m : Int))) =
        String.mk (EncodeToString (formatInt (n : Int))) → m = n := by
  have key : ∀ k : Nat, k < 100000 →
      DecodeString (String.mk (EncodeToString (formatInt (k : Int)))) = some (formatNat k) ∧
        Atoi (formatNat k) = some (k : Int) := by
    intro k hk
    rw [formatInt_natCast]
    exact ⟨DecodeString_EncodeToString _ (formatNat_lt k), Atoi_formatNat k (by omega)⟩
  refine ⟨⟨formatNat n, key n hn⟩, fun m hm heq => ?_⟩
  have h1 := (key m hm).1
  rw [heq, (key n hn).1] at h1
  have h2 := (key m hm).2
  rw [← Option.some.inj h1, (key n hn).2] at h2
  exact_mod_cast (Option.some.inj h2).symm

/-- C10 at the largest token, 99999. -/
theorem issued_token_roundtrip_witness :
    (∃ bytes, DecodeString (String.mk (EncodeToString (formatInt ((99999 : Nat) : Int)))) =
        some bytes ∧ Atoi bytes = some ((99999 : Nat) : Int)) ∧
    ∀ m : Nat, m < 100000 →
      String.mk (EncodeToString (formatInt (m : Int))) =
        String.mk (EncodeToString (formatInt ((99999 : Nat) : Int))) → m = 99999 :=
  issued_token_roundtrip 99999 (by decide)

/-! ### One request -/

theorem wrapInt64_of_inRange (x : Int) (hlo : -(2 ^ 63 : Int) ≤ x) (hhi : x < 2 ^ 63) :
    wrapInt64 x = x := by
  unfold wrapInt64
  omega

theorem tokenOf_eq_some {h : HashcashData} {token : Int} (ht : tokenOf h = some token) :
    ∃ bytes, DecodeString h.Rand = some bytes ∧ Atoi bytes = some token := by
  simpa [tokenOf, Option.bind_eq_some] using ht

theorem Intn_lt (n rnd : Nat) (hn : 0 < n) : Intn n rnd < n := Nat.mod_lt _ hn

/-- C3: a resource-request whose stamp names another resource than the
requesting connection is rejected with an error and no message, whatever the
store, the clock and the proof-of-work engine are; no call is made on the
store and the store is left as it was. -/
theorem resource_mismatch_rejected {σ : Type} (deps : Deps) (ctx : Context σ) (rnd : Nat)
    (store : σ) (msgStr clientInfo payload : String) (hashcash : HashcashData)
    (hparse : deps.ParseMessage msgStr = .ok ⟨.RequestResource, payload⟩)
    (hstamp : deps.Unmarshal payload = .ok hashcash)
    (hres : hashcash.Resource ≠ clientInfo) :
    ProcessRequest deps ctx rnd store msgStr clientInfo =
      some ⟨none, some (.errorf "invalid hashcash resource"), store, []⟩ := by
  simp [ProcessRequest, hparse, hstamp, hres]

/-- C4: a resource-request whose token the store reports as absent (`Get`
returns false) yields an error and no message, whatever the date of the stamp
and the verdict of the proof-of-work engine, and `Delete` is not called. -/
theorem absent_token_rejected {σ : Type} (deps : Deps) (ctx : Context σ) (rnd : Nat)
    (store : σ) (msgStr clientInfo payload : String) (hashcash : HashcashData) (token : Int)
    (hparse : deps.ParseMessage msgStr = .ok ⟨.RequestResource, payload⟩)
    (hstamp : deps.Unmarshal payload = .ok hashcash)
    (htoken : tokenOf hashcash = some token)
    (habsent : (ctx.cache.Get store token).1.1 = false) :
    ∃ o e, ProcessRequest deps ctx rnd store msgStr clientInfo = some o ∧
      o.msg = none ∧ o.err = some e ∧ ∀ key, Call.Delete key ∉ o.calls := by
  obtain ⟨bytes, hb, ha⟩ := tokenOf_eq_some htoken
  by_cases hres : hashcash.Resource = clientInfo
  · rcases hg : ctx.cache.Get store token with ⟨⟨b, e⟩, s1⟩
    rw [hg] at habsent
    simp only at habsent
    subst habsent
    cases e <;> simp [ProcessRequest, hparse, hstamp, hres, hb, ha, hg]
  · simp [ProcessRequest, hparse, hstamp, hres]

/-- C5: a resource-request whose stamp is older than the configured duration
(`clock.Now().Unix() - hashcash.Date > conf.HashcashDuration`, the subtraction
being the 64-bit one of the source, which is the exact difference whenever
that fits 64 bits) yields an error and no message, whatever the store reports
and whatever the proof-of-work engine would say, and the token is not
deleted. -/
theorem stale_stamp_rejected {σ : Type} (deps : Deps) (ctx : Context σ) (rnd : Nat)
    (store : σ) (msgStr clientInfo payload : String) (hashcash : HashcashData)
    (hparse : deps.ParseMessage msgStr = .ok ⟨.RequestResource, payload⟩)
    (hstamp : deps.Unmarshal payload = .ok hashcash)
    (hstale : wrapInt64 (ctx.clock.Now - hashcash.Date) > ctx.config.HashcashDuration) :
    ∃ o e, ProcessRequest deps ctx rnd store msgStr clientInfo = some o ∧
      o.msg = none ∧ o.err = some e ∧ ∀ key, Call.Delete key ∉ o.calls := by
  by_cases hres : hashcash.Resource = clientInfo
  · cases hb : DecodeString hashcash.Rand with
    | none => simp [ProcessRequest, hparse, hstamp, hres, hb]
    | some bytes =>
      cases ha : Atoi bytes with
      | none => simp [ProcessRequest, hparse, hstamp, hres, hb, ha]
      | some token =>
        rcases hg : ctx.cache.Get store token with ⟨⟨b, e⟩, s1⟩
        cases e <;> cases b <;>
          simp [ProcessRequest, hparse, hstamp, hres, hb, ha, hg, hstale]
  · simp [ProcessRequest, hparse, hstamp, hres]

theorem Quotes_get (rnd : Nat) :
    ∃ quote, Quotes[Intn 4 rnd]? = some quote ∧ quote ∈ Quotes := by
  have hlt : Intn 4 rnd < Quotes.length := Intn_lt 4 rnd (by decide)
  exact ⟨Quotes[Intn 4 rnd], List.getElem?_eq_getElem hlt, List.getElem_mem hlt⟩

/-- C6: a resource-request that passes every check (the payload decodes to a
stamp, its resource is the client, its rand decodes to an integer token, `Get`
reports the token present, the stamp is not older than the duration,
`ComputeHashcash` returns no error) is answered, with no error, by a
resource-response whose payload is an entry of `Quotes` (the drawn index is in
range), and the only call that changes the store is `Delete` on the token
decoded from the stamp. -/
theorem valid_request_rewarded {σ : Type} (deps : Deps) (ctx : Context σ) (rnd : Nat)
    (store store1 : σ) (msgStr clientInfo payload : String) (hashcash : HashcashData)
    (bytes : List Nat) (token : Int)
    (hparse : deps.ParseMessage msgStr = .ok ⟨.RequestResource, payload⟩)
    (hstamp : deps.Unmarshal payload = .ok hashcash)
    (hres : hashcash.Resource = clientInfo)
    (hbytes : DecodeString hashcash.Rand = some bytes)
    (htoken : Atoi bytes = some token)
    (hget : ctx.cache.Get store token = ((true, none), store1))
    (hfresh : wrapInt64 (ctx.clock.Now - hashcash.Date) ≤ ctx.config.HashcashDuration)
    (hpow : (deps.ComputeHashcash hashcash
      (if hashcash.Counter = 0 then 1 else hashcash.Counter)).2 = none) :
    Intn 4 rnd < Quotes.length ∧
    ∃ quote, Quotes[Intn 4 rnd]? = some quote ∧ quote ∈ Quotes ∧
      ProcessRequest deps ctx rnd store msgStr clientInfo =
        some ⟨some ⟨.ResponseResource, quote⟩, none, ctx.cache.Delete store1 token,
          [.Get token,
            .ComputeHashcash hashcash (if hashcash.Counter = 0 then 1 else hashcash.Counter),
            .Delete token]⟩ := by
  refine ⟨Intn_lt 4 rnd (by decide), ?_⟩
  obtain ⟨quote, hq, hmem⟩ := Quotes_get rnd
  refine ⟨quote, hq, hmem, ?_⟩
  have hnot : ¬ ctx.config.HashcashDuration < wrapInt64 (ctx.clock.Now - hashcash.Date) :=
    not_lt.mpr hfresh
  simp [ProcessRequest, hparse, hstamp, hres, hbytes, htoken, hget, hnot, hpow, hq]

/-- C7: a challenge-request for which `Add` succeeds is answered, with no
error, by a challenge-response whose payload is the encoding of the stamp with
version 1, the configured difficulty, the clock reading as date, the client as
resource, counter 0 and, as rand, the base64 text of the decimal token drawn;
the one call on the store is `Add` of that token with the configured duration.
(`payload` is what `json.Marshal` returns for the stamp.) -/
theorem challenge_issued {σ : Type} (deps : Deps) (ctx : Context σ) (rnd : Nat)
    (store store1 : σ) (msgStr clientInfo reqPayload payload : String)
    (hparse : deps.ParseMessage msgStr = .ok ⟨.RequestChallenge, reqPayload⟩)
    (hadd : ctx.cache.Add store (Intn 100000 rnd : Nat) ctx.config.HashcashDuration =
      (none, store1))
    (hjson : deps.Marshal
      { Version := 1
        ZerosCount := ctx.config.HashcashZerosCount
        Date := ctx.clock.Now
        Resource := clientInfo
        Rand := String.mk (EncodeToString (formatInt (Intn 100000 rnd : Nat)))
        Counter := 0 } = .ok payload) :
    ProcessRequest deps ctx rnd store msgStr clientInfo =
      some ⟨some ⟨.ResponseChallenge, payload⟩, none, store1,
        [.Add (Intn 100000 rnd : Nat) ctx.config.HashcashDuration]⟩ := by
  simp [ProcessRequest, hparse, hadd, hjson]

/-- C8: `ProcessRequest` always returns, and returns exactly one of a message
and an error. A line that does not parse returns the parse error, a quit
request returns `ErrQuit`, a header that is none of quit, challenge-request
and resource-request returns an error, a failing `Add` returns an error, and a
resource-request that fails any validation (a failing `Get` included)
returns an error: each with no message. `handleConnection` writes nothing to
the peer and leaves its loop whenever an error is returned. -/
theorem message_xor_error {σ : Type} (deps : Deps) (ctx : Context σ) (rnd : Nat)
    (store : σ) (msgStr clientInfo : String) :
    ∃ o, ProcessRequest deps ctx rnd store msgStr clientInfo = some o ∧
      ((o.msg = none ∧ o.err ≠ none) ∨ (o.msg ≠ none ∧ o.err = none)) ∧
      (o.err ≠ none → handleOutcome o = (none, false)) ∧
      (∀ e, deps.ParseMessage msgStr = .error e → o.msg = none ∧ o.err = some e) ∧
      (∀ m, deps.ParseMessage msgStr = .ok m →
        (m.Header = .Quit → o.msg = none ∧ o.err = some .ErrQuit) ∧
        (m.Header ≠ .Quit → m.Header ≠ .RequestChallenge → m.Header ≠ .RequestResource →
          o.msg = none ∧ o.err = some (.errorf "unknown header")) ∧
        (m.Header = .RequestChallenge →
          (ctx.cache.Add store (Intn 100000 rnd : Nat) ctx.config.HashcashDuration).1 ≠ none →
          o.msg = none ∧ o.err ≠ none) ∧
        (m.Header = .RequestResource →
          ¬ PassesChecks deps ctx store clientInfo m.Payload → o.msg = none ∧ o.err ≠ none)) := by
  cases hp : deps.ParseMessage msgStr with
  | error e => simp [ProcessRequest, handleOutcome, hp]
  | ok m =>
    obtain ⟨hd, payload⟩ := m
    cases hd with
    | Quit => simp [ProcessRequest, handleOutcome, hp]
    | ResponseChallenge => simp [ProcessRequest, handleOutcome, hp]
    | ResponseResource => simp [ProcessRequest, handleOutcome, hp]
    | Unrecognized => simp [ProcessRequest, handleOutcome, hp]
    | RequestChallenge =>
      rcases ha : ctx.cache.Add store (Intn 100000 rnd : Nat) ctx.config.HashcashDuration
        with ⟨e, s1⟩
      cases e with
      | some e => simp [ProcessRequest, handleOutcome, hp, ha]
      | none =>
        cases hm : deps.Marshal
          { Version := 1
            ZerosCount := ctx.config.HashcashZerosCount
            Date := ctx.clock.Now
            Resource := clientInfo
            Rand := String.mk (EncodeToString (formatInt (Intn 100000 rnd : Nat)))
            Counter := 0 } with
        | error e => simp [ProcessRequest, handleOutcome, hp, ha, hm]
        | ok p => simp [ProcessRequest, handleOutcome, hp, ha, hm]
    | RequestResource =>
      cases hu : deps.Unmarshal payload with
      | error e => simp [ProcessRequest, handleOutcome, hp, PassesChecks, hu]
      | ok h =>
        by_cases hres : h.Resource = clientInfo
        swap
        · simp [ProcessRequest, handleOutcome, hp, PassesChecks, hu, hres]
        cases hb : DecodeString h.Rand with
        | none => simp [ProcessRequest, handleOutcome, hp, PassesChecks, tokenOf, hu, hres, hb]
        | some bytes =>
          cases hat : Atoi bytes with
          | none =>
            simp [ProcessRequest, handleOutcome, hp, PassesChecks, tokenOf, hu, hres, hb, hat]
          | some token =>
            rcases hg : ctx.cache.Get store token with ⟨⟨b, e⟩, s1⟩
            cases e with
            | some e =>
              simp [ProcessRequest, handleOutcome, hp, PassesChecks, tokenOf, hu, hres, hb, hat, hg]
            | none =>
              cases b with
              | false =>
                simp [ProcessRequest, handleOutcome, hp, PassesChecks, tokenOf, hu, hres, hb, hat,
                  hg]
              | true =>
                by_cases hst :
                  ctx.config.HashcashDuration < wrapInt64 (ctx.clock.Now - h.Date)
                · simp [ProcessRequest, handleOutcome, hp, PassesChecks, tokenOf, hu, hres, hb,
                    hat, hg, hst]
                cases hc :
                  (deps.ComputeHashcash h (if h.Counter = 0 then 1 else h.Counter)).2 with
                | some e =>
                  simp [ProcessRequest, handleOutcome, hp, PassesChecks, tokenOf, hu, hres, hb,
                    hat, hg, hst, hc]
                | none =>
                  obtain ⟨quote, hq, -⟩ := Quotes_get rnd
                  simp [ProcessRequest, handleOutcome, hp, hu, hres, hb, hat, hg, hst, hc, hq]
                  exact ⟨h, token, s1, hu, hres, by simp [tokenOf, hb, hat], hg,
                    not_lt.mp hst, hc⟩

/-! ### Sequences of requests -/

/-- What a request does to the store: nothing, with no message returned; or
the `Add` of a challenge-request; or the `Get` of a resource-request, followed
by `Delete` exactly when a message is returned. -/
theorem ProcessRequest_effect {σ : Type} (deps : Deps) (ctx : Context σ) (rnd : Nat)
    (store : σ) (msgStr clientInfo : String) :
    ∃ o, ProcessRequest deps ctx rnd store msgStr clientInfo = some o ∧
      (o.msg = none → o.err ≠ none) ∧
      ((o.msg = none ∧ o.store = store) ∨
       (∃ p, deps.ParseMessage msgStr = .ok ⟨.RequestChallenge, p⟩ ∧
          o.store =
            (ctx.cache.Add store (Intn 100000 rnd : Nat) ctx.config.HashcashDuration).2) ∨
       (∃ p h t, deps.ParseMessage msgStr = .ok ⟨.RequestResource, p⟩ ∧
          deps.Unmarshal p = .ok h ∧ tokenOf h = some t ∧
          ((o.msg = none ∧ o.store = (ctx.cache.Get store t).2) ∨
           ((ctx.cache.Get store t).1.1 = true ∧
              o.store = ctx.cache.Delete (ctx.cache.Get store t).2 t)))) := by
  cases hp : deps.ParseMessage msgStr with
  | error e => simp [ProcessRequest, hp]
  | ok m =>
    obtain ⟨hd, payload⟩ := m
    cases hd with
    | Quit => simp [ProcessRequest, hp]
    | ResponseChallenge => simp [ProcessRequest, hp]
    | ResponseResource => simp [ProcessRequest, hp]
    | Unrecognized => simp [ProcessRequest, hp]
    | RequestChallenge =>
      rcases ha : ctx.cache.Add store (Intn 100000 rnd : Nat) ctx.config.HashcashDuration
        with ⟨e, s1⟩
      cases e with
      | some e => simp [ProcessRequest, hp, ha]
      | none =>
        cases hm : deps.Marshal
          { Version := 1
            ZerosCount := ctx.config.HashcashZerosCount
            Date := ctx.clock.Now
            Resource := clientInfo
            Rand := String.mk (EncodeToString (formatInt (Intn 100000 rnd : Nat)))
            Counter := 0 } with
        | error e => simp [ProcessRequest, hp, ha, hm]
        | ok p => simp [ProcessRequest, hp, ha, hm]
    | RequestResource =>
      cases hu : deps.Unmarshal payload with
      | error e => simp [ProcessRequest, hp, hu]
      | ok h =>
        by_cases hres : h.Resource = clientInfo
        swap
        · simp [ProcessRequest, hp, hu, hres]
        cases hb : DecodeString h.Rand with
        | none => simp [ProcessRequest, hp, hu, hres, hb]
        | some bytes =>
          cases hat : Atoi bytes with
          | none => simp [ProcessRequest, hp, hu, hres, hb, hat]
          | some token =>
            have ht : tokenOf h = some token := by simp [tokenOf, hb, hat]
            rcases hg : ctx.cache.Get store token with ⟨⟨b, e⟩, s1⟩
            cases e with
            | some e => simp [ProcessRequest, hp, hu, hres, hb, hat, hg, ht]
            | none =>
              cases b with
              | false => simp [ProcessRequest, hp, hu, hres, hb, hat, hg, ht]
              | true =>
                by_cases hst :
                  ctx.config.HashcashDuration < wrapInt64 (ctx.clock.Now - h.Date)
                · simp [ProcessRequest, hp, hu, hres, hb, hat, hg, ht, hst]
                cases hc :
                  (deps.ComputeHashcash h (if h.Counter = 0 then 1 else h.Counter)).2 with
                | some e => simp [ProcessRequest, hp, hu, hres, hb, hat, hg, ht, hst, hc]
                | none =>
                  obtain ⟨quote, hq, -⟩ := Quotes_get rnd
                  simp [ProcessRequest, hp, hu, hres, hb, hat, hg, ht, hst, hc, hq]

theorem Store.get_eq_false_iff (s : Store) (now token : Int) :
    s.get now token = false ↔ ∀ e ∈ s, e.1 = token → ¬ now ≤ e.2 := by
  simp [Store.get, List.any_eq_false]

theorem Store.get_delete_self (s : Store) (now token : Int) :
    (s.delete token).get now token = false := by
  rw [Store.get_eq_false_iff]
  intro e he heq
  simp [Store.delete, List.mem_filter] at he
  exact absurd heq he.2

theorem Store.absent_delete (s : Store) (token key : Int)
    (habs : ∀ now, s.get now token = false) (now : Int) :
    (s.delete key).get now token = false := by
  rw [Store.get_eq_false_iff]
  intro e he heq
  simp [Store.delete, List.mem_filter] at he
  exact (Store.get_eq_false_iff s now token).mp (habs now) e he.1 heq

theorem Store.absent_add (s : Store) (token key at_ ttl : Int) (hne : key ≠ token)
    (habs : ∀ now, s.get now token = false) (now : Int) :
    (s.add at_ key ttl).get now token = false := by
  rw [Store.get_eq_false_iff]
  intro e he heq
  simp only [Store.add, List.mem_cons, List.mem_filter] at he
  rcases he with rfl | he
  · exact absurd heq hne
  · exact (Store.get_eq_false_iff s now token).mp (habs now) e he.1 heq

theorem headerOf_eq (deps : Deps) (r : Request) (m : Message)
    (hp : deps.ParseMessage r.msgStr = .ok m) : headerOf deps r = some m.Header := by
  simp [headerOf, hp]

/-- A request that is not a challenge-request drawing `token` leaves an absent
token absent. -/
theorem step_absent (deps : Deps) (conf : Config) (s : Store) (r : Request) (token : Int)
    (habs : ∀ now, s.get now token = false)
    (hdraw : IsChallengeRequest deps r → ((Intn 100000 r.rnd : Nat) : Int) ≠ token) :
    ∀ now, (run deps conf s [r]).get now token = false := by
  obtain ⟨o, ho, -, heff⟩ :=
    ProcessRequest_effect deps ⟨conf, ⟨r.now⟩, storeCache r.now⟩ r.rnd s r.msgStr r.clientInfo
  have hrun : run deps conf s [r] = o.store := by simp [run, step, ho]
  rw [hrun]
  rcases heff with ⟨-, hs⟩ | ⟨p, hp, hs⟩ | ⟨p, h, t, -, -, -, ⟨-, hs⟩ | ⟨-, hs⟩⟩
  · rw [hs]; exact habs
  · rw [hs]
    have hne := hdraw (by simp [IsChallengeRequest, headerOf_eq deps r _ hp])
    exact Store.absent_add s token _ r.now _ hne habs
  · rw [hs]; exact habs
  · rw [hs]; exact Store.absent_delete s token t habs

theorem run_append (deps : Deps) (conf : Config) (s : Store) (xs ys : List Request) :
    run deps conf s (xs ++ ys) = run deps conf (run deps conf s xs) ys := by
  induction xs generalizing s with
  | nil => rfl
  | cons x xs ih =>
    cases hx : step deps conf s x with
    | none => simp [run, hx, ih]
    | some o => simp [run, hx, ih]

theorem run_absent (deps : Deps) (conf : Config) (token : Int) (rs : List Request) :
    ∀ s : Store, (∀ now, s.get now token = false) →
      (∀ r ∈ rs, IsChallengeRequest deps r → ((Intn 100000 r.rnd : Nat) : Int) ≠ token) →
      ∀ now, (run deps conf s rs).get now token = false := by
  induction rs with
  | nil => intro s habs _; exact habs
  | cons r rs ih =>
    intro s habs hdraw
    have h1 := step_absent deps conf s r token habs (hdraw r (by simp))
    have h2 := ih (run deps conf s [r]) h1 (fun x hx => hdraw x (by simp [hx]))
    have happ := run_append deps conf s [r] rs
    simp only [List.singleton_append] at happ
    rw [happ]
    exact h2

/-- An accepted resource-request carrying `h` leaves the token of `h` absent
from the store. -/
theorem accepted_deletes (deps : Deps) (conf : Config) (s : Store) (r : Request)
    (h : HashcashData) (hcar : Carries deps r h) (hacc : Accepted (step deps conf s r)) :
    ∃ token, tokenOf h = some token ∧ ∀ now, (run deps conf s [r]).get now token = false := by
  obtain ⟨payload, hparse, hstamp⟩ := hcar
  obtain ⟨o, ho, -, heff⟩ :=
    ProcessRequest_effect deps ⟨conf, ⟨r.now⟩, storeCache r.now⟩ r.rnd s r.msgStr r.clientInfo
  have hstep : step deps conf s r = some o := ho
  have hrun : run deps conf s [r] = o.store := by simp [run, hstep]
  have hmsg : o.msg ≠ none := by
    intro hn
    simp [Accepted, hstep, hn] at hacc
  rcases heff with ⟨hn, -⟩ | ⟨p, hp, -⟩ | ⟨p, h', t, hp, hu, ht, ⟨hn, -⟩ | ⟨-, hs⟩⟩
  · exact absurd hn hmsg
  · rw [hparse] at hp; simp at hp
  · exact absurd hn hmsg
  · rw [hparse] at hp
    simp only [Except.ok.injEq, Message.mk.injEq, true_and] at hp
    subst hp
    rw [hstamp] at hu
    simp only [Except.ok.injEq] at hu
    subst hu
    refine ⟨t, ht, fun now => ?_⟩
    rw [hrun, hs]
    exact Store.get_delete_self s now t

/-- A resource-request whose token is absent from the store of section 4.3 is
rejected. -/
theorem absent_rejected (deps : Deps) (conf : Config) (s : Store) (r : Request)
    (h : HashcashData) (token : Int) (hcar : Carries deps r h)
    (htoken : tokenOf h = some token) (habs : ∀ now, s.get now token = false) :
    Rejected (step deps conf s r) := by
  obtain ⟨payload, hparse, hstamp⟩ := hcar
  obtain ⟨o, ho, herr, heff⟩ :=
    ProcessRequest_effect deps ⟨conf, ⟨r.now⟩, storeCache r.now⟩ r.rnd s r.msgStr r.clientInfo
  have hstep : step deps conf s r = some o := ho
  have hrej : o.msg = none → Rejected (step deps conf s r) := by
    intro hn
    obtain ⟨e, he⟩ := Option.ne_none_iff_exists'.mp (herr hn)
    exact ⟨o, e, hstep, hn, he⟩
  rcases heff with ⟨hn, -⟩ | ⟨p, hp, -⟩ | ⟨p, h', t, hp, hu, ht, ⟨hn, -⟩ | ⟨hg, -⟩⟩
  · exact hrej hn
  · rw [hparse] at hp; simp at hp
  · exact hrej hn
  · rw [hparse] at hp
    simp only [Except.ok.injEq, Message.mk.injEq, true_and] at hp
    subst hp
    rw [hstamp] at hu
    simp only [Except.ok.injEq] at hu
    subst hu
    rw [htoken] at ht
    simp only [Option.some.injEq] at ht
    subst ht
    simp [storeCache, habs r.now] at hg

/-- Along a run in which no challenge-request draws the token of an accepted
stamp again, every later resource-request carrying that stamp is rejected,
whatever requests are processed before and in between: a second acceptance
needs the token to be added again. -/
theorem no_replay_unless_reissued (deps : Deps) (conf : Config) (s0 : Store)
    (pre mid : List Request) (r1 r2 : Request) (h : HashcashData)
    (hcar1 : Carries deps r1 h) (hcar2 : Carries deps r2 h)
    (hacc : Accepted (step deps conf (run deps conf s0 pre) r1))
    (hmid : ∀ r ∈ mid, IsChallengeRequest deps r →
      tokenOf h ≠ some ((Intn 100000 r.rnd : Nat) : Int)) :
    Rejected (step deps conf (run deps conf s0 (pre ++ r1 :: mid)) r2) := by
  obtain ⟨token, htoken, habs⟩ := accepted_deletes deps conf _ r1 h hcar1 hacc
  have hsplit : run deps conf s0 (pre ++ r1 :: mid) =
      run deps conf (run deps conf (run deps conf s0 pre) [r1]) mid := by
    rw [run_append, ← run_append deps conf _ [r1] mid]
    rfl
  rw [hsplit]
  refine absent_rejected deps conf _ r2 h token hcar2 htoken ?_
  refine run_absent deps conf token mid _ habs (fun r hr hc => ?_)
  intro heq
  exact hmid r hr hc (by rw [htoken, heq])

/-- C1 fails on the code: the sample client is issued token 7 at time 100 and
redeems the solved stamp at time 130; a challenge-request at time 140 draws
token 7 again (`rand.Intn(100000)` is not checked against the tokens issued
before) and adds it to the store; the same resource-request, sent at time 150,
is accepted a second time. -/
theorem replay_after_reissue :
    Carries sampleDeps ⟨solvedLine, sampleClient, 130, 2⟩ solvedStamp ∧
    Carries sampleDeps ⟨solvedLine, sampleClient, 150, 1⟩ solvedStamp ∧
    Accepted (step sampleDeps sampleConfig
      (run sampleDeps sampleConfig [] [⟨"challenge-request|\n", sampleClient, 100, 7⟩])
      ⟨solvedLine, sampleClient, 130, 2⟩) ∧
    Accepted (step sampleDeps sampleConfig
      (run sampleDeps sampleConfig []
        ([⟨"challenge-request|\n", sampleClient, 100, 7⟩] ++
          ⟨solvedLine, sampleClient, 130, 2⟩ ::
            [⟨"challenge-request|\n", sampleClient, 140, 100007⟩]))
      ⟨solvedLine, sampleClient, 150, 1⟩) :=
  ⟨⟨"1;3;100;10.0.0.7:5555;Nw==;700", by decide, by decide⟩,
    ⟨"1;3;100;10.0.0.7:5555;Nw==;700", by decide, by decide⟩, by decide, by decide⟩

/-- The run of `replay_after_reissue` with the second challenge-request
drawing token 8 instead: the second redemption is rejected. -/
theorem no_replay_unless_reissued_witness :
    Rejected (step sampleDeps sampleConfig
      (run sampleDeps sampleConfig []
        ([⟨"challenge-request|\n", sampleClient, 100, 7⟩] ++
          ⟨solvedLine, sampleClient, 130, 2⟩ ::
            [⟨"challenge-request|\n", sampleClient, 140, 100008⟩]))
      ⟨solvedLine, sampleClient, 150, 1⟩) :=
  no_replay_unless_reissued sampleDeps sampleConfig []
    [⟨"challenge-request|\n", sampleClient, 100, 7⟩]
    [⟨"challenge-request|\n", sampleClient, 140, 100008⟩]
    ⟨solvedLine, sampleClient, 130, 2⟩ ⟨solvedLine, sampleClient, 150, 1⟩ solvedStamp
    ⟨"1;3;100;10.0.0.7:5555;Nw==;700", by decide, by decide⟩
    ⟨"1;3;100;10.0.0.7:5555;Nw==;700", by decide, by decide⟩ (by decide) (by decide)

/-- C2 fails on the code: with the configured difficulty 3, a stamp that
declares difficulty 0 and whose digest has no leading zero is accepted; the
engine is asked to verify the stamp against the difficulty the stamp itself
carries, and the same stamp at the configured difficulty does not verify. -/
theorem client_chosen_difficulty_accepted :
    sampleConfig.HashcashZerosCount = 3 ∧
    sampleDigest ⟨1, 0, 100, "10.0.0.7:5555", "Nw==", 1⟩ = ['1', '3', '7'] ∧
    (sampleDeps.ComputeHashcash ⟨1, 3, 100, "10.0.0.7:5555", "Nw==", 1⟩ 1).2 ≠ none ∧
    (ProcessRequest sampleDeps (sampleContext 130) 2 [(7, 400)]
        "resource-request|1;0;100;10.0.0.7:5555;Nw==;1\n" sampleClient).map
      (fun o => (o.msg, o.err, o.store, o.calls)) =
      some (some ⟨.ResponseResource,
          "And shall run and not be weary, and shall walk and not faint"⟩, none, [],
        [.Get 7, .ComputeHashcash ⟨1, 0, 100, "10.0.0.7:5555", "Nw==", 1⟩ 1, .Delete 7]) := by
  decide

/-- C9 fails on the code: for a stamp with counter -1 the iteration limit
passed to `ComputeHashcash` is -1. -/
theorem negative_counter_limit :
    (ProcessRequest sampleDeps (sampleContext 130) 2 [(7, 400)]
        "resource-request|1;3;100;10.0.0.7:5555;Nw==;-1\n" sampleClient).map
      (fun o => o.calls) =
      some [.Get 7, .ComputeHashcash ⟨1, 3, 100, "10.0.0.7:5555", "Nw==", -1⟩ (-1)] := by
  decide

/-- C3 on a stamp issued to another connection. -/
theorem resource_mismatch_rejected_witness :
    ProcessRequest sampleDeps (sampleContext 130) 2 [(7, 400)] solvedLine "10.0.0.9:4444" =
      some ⟨none, some (.errorf "invalid hashcash resource"), [(7, 400)], []⟩ :=
  resource_mismatch_rejected sampleDeps (sampleContext 130) 2 [(7, 400)] solvedLine
    "10.0.0.9:4444" "1;3;100;10.0.0.7:5555;Nw==;700" solvedStamp
    (by decide) (by decide) (by decide)

/-- C4 on the solved stamp when the store is empty. -/
theorem absent_token_rejected_witness :
    ∃ o e, ProcessRequest sampleDeps (sampleContext 130) 2 [] solvedLine sampleClient = some o ∧
      o.msg = none ∧ o.err = some e ∧ ∀ key, Call.Delete key ∉ o.calls :=
  absent_token_rejected sampleDeps (sampleContext 130) 2 [] solvedLine sampleClient
    "1;3;100;10.0.0.7:5555;Nw==;700" solvedStamp 7 (by decide) (by decide) (by decide)
    (by decide)

/-- C5 on the solved stamp, sent 301 seconds after its date while the store
still holds its token. -/
theorem stale_stamp_rejected_witness :
    (sampleContext 401).cache.Get [(7, 1000)] 7 = ((true, none), [(7, 1000)]) ∧
    ∃ o e, ProcessRequest sampleDeps (sampleContext 401) 2 [(7, 1000)] solvedLine
        sampleClient = some o ∧
      o.msg = none ∧ o.err = some e ∧ ∀ key, Call.Delete key ∉ o.calls :=
  ⟨by decide,
    stale_stamp_rejected sampleDeps (sampleContext 401) 2 [(7, 1000)] solvedLine sampleClient
      "1;3;100;10.0.0.7:5555;Nw==;700" solvedStamp (by decide) (by decide) (by decide)⟩

/-- C6 on the solved stamp, sent 30 seconds after its date. -/
theorem valid_request_rewarded_witness :
    Intn 4 2 < Quotes.length ∧
    ∃ quote, Quotes[Intn 4 2]? = some quote ∧ quote ∈ Quotes ∧
      ProcessRequest sampleDeps (sampleContext 130) 2 [(7, 400)] solvedLine sampleClient =
        some ⟨some ⟨.ResponseResource, quote⟩, none,
          (sampleContext 130).cache.Delete [(7, 400)] 7,
          [.Get 7,
            .ComputeHashcash solvedStamp
              (if solvedStamp.Counter = 0 then 1 else solvedStamp.Counter),
            .Delete 7]⟩ :=
  valid_request_rewarded sampleDeps (sampleContext 130) 2 [(7, 400)] [(7, 400)] solvedLine
    sampleClient "1;3;100;10.0.0.7:5555;Nw==;700" solvedStamp [55] 7
    (by decide) (by decide) (by decide) (by decide) (by decide) (by decide) (by decide)
    (by decide)

/-- C7 on a challenge-request of the sample client at time 100 with draw 7. -/
theorem challenge_issued_witness :
    ProcessRequest sampleDeps (sampleContext 100) 7 [] "challenge-request|\n" sampleClient =
      some ⟨some ⟨.ResponseChallenge, "1;3;100;10.0.0.7:5555;Nw==;0"⟩, none, [(7, 400)],
        [.Add (Intn 100000 7 : Nat) (sampleContext 100).config.HashcashDuration]⟩ :=
  challenge_issued sampleDeps (sampleContext 100) 7 [] [(7, 400)] "challenge-request|\n"
    sampleClient "" "1;3;100;10.0.0.7:5555;Nw==;0" (by decide) (by decide) (by decide)

end Server
